import Mathlib

/-!
Verification of the presence sessionization and aggregation engine of
FaceBoard.py, a Facebook-presence tracking dashboard.

Timestamps are modelled as rational instants measured in minutes
(the source stores `YYYY-MM-DD HH:MM:SS` strings and converts
differences to minutes via `np.timedelta64(1, 'm')`, so sub-minute
timestamps are fractional minutes).  The epoch (instant 0) is taken to
be midnight at the start of a Monday, so calendar dates are
`⌊t / 1440⌋`, the hour of day is `⌊t / 60⌋ - 24 * ⌊t / 1440⌋` and the
weekday index (0 = Monday) is `⌊t / 1440⌋ % 7`, mirroring pandas'
`dt.date`, `dt.hour` and `dt.day_name()` fields extracted in
`get_activity_data`.

A raw observation row (one row of the `online_activity` table, with
the derived time fields) is modelled by `Row`.  DataFrames are lists
of rows.  Presentation-only reorderings in the source (pandas
`groupby` emitting group keys in sorted order, the final
`sort_values('Total Online (min)', ascending=False)` of the summary
table, and `sorted(...)` applied to the displayed user list) are not
modelled; all statements about those lists are order-invariant
(membership / lookup by user name).
-/

/-- One observation row: `(name, timestamp)` from the `online_activity`
table (`status` is always the literal `"Online"` and is never consulted
by the computations modelled here). -/
structure Row where
  name : String
  ts   : ℚ
deriving DecidableEq, Repr

/-- `np.diff(timestamps)` in minutes (FaceBoard.py line 75 / 2438). -/
def timeDiffs : List ℚ → List ℚ
  | a :: b :: rest => (b - a) :: timeDiffs (b :: rest)
  | _ => []

/-- `np.where(time_diffs > session_gap_minutes)[0]` (line 78): the
indices of consecutive differences strictly greater than the gap
threshold, in increasing order. -/
def sessionBreaks (ts : List ℚ) (G : ℚ) : List ℕ :=
  (List.range (timeDiffs ts).length).filter (fun i => (timeDiffs ts).getD i 0 > G)

/-- `np.where(time_diffs > session_break_threshold)[0]` (line 2442),
the identical computation inside
`DatabaseManager._calculate_session_metrics`, with the threshold fixed
at 15 minutes (line 2441). -/
def metricsBreaks (ts : List ℚ) : List ℕ :=
  (List.range (timeDiffs ts).length).filter (fun i => (timeDiffs ts).getD i 0 > 15)

/-- `session_starts = [0] + [i + 1 for i in session_breaks]` (line 84). -/
def sessionStarts (ts : List ℚ) (G : ℚ) : List ℕ :=
  0 :: (sessionBreaks ts G).map (· + 1)

/-- `session_ends = list(session_breaks) + [len(timestamps) - 1]` (line 85). -/
def sessionEnds (ts : List ℚ) (G : ℚ) : List ℕ :=
  sessionBreaks ts G ++ [ts.length - 1]

/-- The sessions of `calculate_sessions` as `(start_time, end_time)`
pairs: `zip(session_starts, session_ends)` mapped through
`timestamps[...]` (lines 89-91). -/
def sessionsOf (ts : List ℚ) (G : ℚ) : List (ℚ × ℚ) :=
  ((sessionStarts ts G).zip (sessionEnds ts G)).map
    (fun p => (ts.getD p.1 0, ts.getD p.2 0))

/-- `duration_minutes = (end_time - start_time)` per session (lines 92-93). -/
def sessionLengths (ts : List ℚ) (G : ℚ) : List ℚ :=
  (sessionsOf ts G).map (fun p => p.2 - p.1)

/-- `np.mean(session_lengths) if session_lengths else 0` (line 95 / 2476). -/
def listMean (l : List ℚ) : ℚ :=
  if l.isEmpty then 0 else l.sum / l.length

/-- `np.max(session_lengths) if session_lengths else 0` (line 96 / 2477). -/
def listMax0 : List ℚ → ℚ
  | [] => 0
  | x :: xs => xs.foldl max x

/-- `series.min()` of a nonempty timestamp series (line 109 / 2491);
0 as a placeholder on the empty list (never reached by the callers
modelled here). -/
def listMin0 : List ℚ → ℚ
  | [] => 0
  | x :: xs => xs.foldl min x

/-- `round(x, 2)`.  The source rounds through Python floats
(round-half-to-even); this model uses the mathematical
round-half-up on ℚ.  Every claim below either applies the same
rounding on both sides of an equation or evaluates it at values where
the two conventions agree, so the difference is immaterial. -/
def round2 (q : ℚ) : ℚ := ((round (100 * q) : ℤ) : ℚ) / 100

/-- `df['timestamp'].dt.date`: the calendar date of an instant. -/
def dateOf (t : ℚ) : ℤ := ⌊t / 1440⌋

/-- One per-user summary row produced by `calculate_sessions`
(lines 103-112) and `_calculate_session_metrics` (lines 2485-2494);
the two code paths use slightly different column captions for the same
quantities. -/
structure SummaryRow where
  name          : String
  totalSessions : ℕ
  avgSession    : ℚ
  maxSession    : ℚ
  totalOnline   : ℚ
  firstSeen     : ℚ
  lastSeen      : ℚ
  daysActive    : ℕ
deriving DecidableEq, Repr

/-- The rows of the DataFrame belonging to one `groupby('name')` group. -/
def userRows (df : List Row) (u : String) : List Row :=
  df.filter (fun r => r.name = u)

/-- `group.sort_values('timestamp')['timestamp'].values` (line 71 / 2430):
the user's timestamps sorted ascending. -/
def userTs (df : List Row) (u : String) : List ℚ :=
  List.insertionSort (· ≤ ·) ((userRows df u).map (·.ts))

/-- The summary row built by `calculate_sessions` for one user from the
sorted timestamps (lines 79-112).  `session_count` is
`len(session_breaks) + 1` (line 79), always positive, so the
`if session_count > 0` guard (line 82) always takes the first branch. -/
def dashSummary (u : String) (ts : List ℚ) (G : ℚ) : SummaryRow :=
  let lens := sessionLengths ts G
  { name          := u
    totalSessions := (sessionBreaks ts G).length + 1
    avgSession    := round2 (listMean lens)
    maxSession    := round2 (listMax0 lens)
    totalOnline   := round2 lens.sum
    firstSeen     := listMin0 ts
    lastSeen      := listMax0 ts
    daysActive    := ((ts.map dateOf).dedup).length }

/-- `calculate_sessions(df, session_gap_minutes)` (lines 62-114):
empty DataFrame when the whole input has fewer than 2 rows (line 64-65),
otherwise one summary row per distinct user name. -/
def calculate_sessions (df : List Row) (G : ℚ) : List SummaryRow :=
  if df.length < 2 then []
  else ((df.map (·.name)).dedup).map (fun u => dashSummary u (userTs df u) G)

/-- The summary row `calculate_sessions` produces for user `u`, if any. -/
def rowFor (df : List Row) (G : ℚ) (u : String) : Option SummaryRow :=
  (calculate_sessions df G).find? (fun r => r.name = u)

/-- The loop of `_calculate_session_metrics` filling the
`session_starts` / `session_ends` arrays (lines 2457-2460):
`for i, break_idx in enumerate(session_breaks): session_ends[i] =
break_idx; if i < len(session_breaks) - 1: session_starts[i + 1] =
break_idx + 1`.  `k` is `len(session_breaks)` and `i` the running loop
index. -/
def metricsLoop (k : ℕ) : List ℕ → List ℕ → List ℕ → ℕ → List ℕ × List ℕ
  | starts, ends, [], _ => (starts, ends)
  | starts, ends, b :: bs, i =>
      metricsLoop k
        (if i < k - 1 then starts.set (i + 1) (b + 1) else starts)
        (ends.set i b) bs (i + 1)

/-- The `session_starts` / `session_ends` index arrays of
`_calculate_session_metrics` (lines 2448-2465): zero-initialised arrays
of length `session_count` (`np.zeros`), `session_starts[0] = 0`, the
loop above, then `session_starts[-1] = session_breaks[-1] + 1` when
breaks exist and `session_ends[-1] = len(timestamps) - 1`. -/
def dbStartsEnds (ts : List ℚ) : List ℕ × List ℕ :=
  let breaks := metricsBreaks ts
  let count := breaks.length + 1
  let p := metricsLoop breaks.length
    (List.replicate count 0) (List.replicate count 0) breaks 0
  let starts := if 0 < breaks.length
    then p.1.set (count - 1) (breaks.getLastD 0 + 1) else p.1
  let ends := p.2.set (count - 1) (ts.length - 1)
  (starts, ends)

/-- `session_lengths` of `_calculate_session_metrics` (lines 2468-2474):
`for start, end in zip(...): if end >= start: append((timestamps[end] -
timestamps[start]) in minutes)`. -/
def dbSessionLengths (ts : List ℚ) : List ℚ :=
  ((dbStartsEnds ts).1.zip (dbStartsEnds ts).2).filterMap
    (fun p => if p.1 ≤ p.2 then some (ts.getD p.2 0 - ts.getD p.1 0) else none)

/-- The summary row built by `_calculate_session_metrics` for one user
from the sorted timestamps (lines 2436-2494). -/
def dbSummary (u : String) (ts : List ℚ) : SummaryRow :=
  let lens := dbSessionLengths ts
  { name          := u
    totalSessions := (metricsBreaks ts).length + 1
    avgSession    := round2 (listMean lens)
    maxSession    := round2 (listMax0 lens)
    totalOnline   := round2 lens.sum
    firstSeen     := listMin0 ts
    lastSeen      := listMax0 ts
    daysActive    := ((ts.map dateOf).dedup).length }

/-- `DatabaseManager._calculate_session_metrics(df)` (lines 2416-2505):
`None` when the input has fewer than 2 rows (lines 2419-2420), users
with fewer than 2 observations are skipped (lines 2432-2434), and
`None` again when no user qualifies (lines 2496-2497). -/
def calculate_session_metrics (df : List Row) : Option (List SummaryRow) :=
  if df.length < 2 then none
  else
    let rows := (((df.map (·.name)).dedup).filter
        (fun u => ¬ (userRows df u).length < 2)).map
      (fun u => dbSummary u (userTs df u))
    if rows.isEmpty then none else some rows

/-- `day_order` (lines 765 / 994): canonical Monday…Sunday order. -/
def day_order : List String :=
  ["Monday", "Tuesday", "Wednesday", "Thursday", "Friday", "Saturday", "Sunday"]

/-- `df['hour']`: hour of day of an instant. -/
def hourOf (t : ℚ) : ℤ := ⌊t / 60⌋ - 24 * ⌊t / 1440⌋

/-- Weekday index of an instant (0 = Monday; the epoch is a Monday). -/
def weekdayIdx (t : ℚ) : ℤ := (⌊t / 1440⌋) % 7

/-- `df['day_name']`: weekday name of an instant. -/
def dayNameOf (t : ℚ) : String := day_order.getD (weekdayIdx t).toNat ""

/-- The hour-of-day histogram of `update_hourly_chart` (lines 849-855):
per-hour observation counts merged onto the dense zero-filled
`all_hours = DataFrame({'hour': range(24), 'count': 0})` grid, so that
all 24 hours are present with count 0 where no observation exists. -/
def hour_counts (df : List Row) : List (ℕ × ℕ) :=
  (List.range 24).map
    (fun h => (h, (df.filter (fun r => hourOf r.ts = (h : ℤ))).length))

/-- The weekday histogram of `update_daily_chart` (lines 764-779):
per-day counts merged onto the dense zero-filled `all_days` grid and
ordered by `day_order` (Monday…Sunday). -/
def day_counts (df : List Row) : List (String × ℕ) :=
  day_order.map
    (fun d => (d, (df.filter (fun r => dayNameOf r.ts = d)).length))

/-- The (weekday × hour) heatmap grid of `update_heatmap`
(lines 996-1020): the complete 7×24 `grid_data` zero-filled grid merged
with the actual counts, every cell present. -/
def heatmap_grid (df : List Row) : List (String × ℕ × ℕ) :=
  (day_order.map (fun d => (List.range 24).map
    (fun (h : ℕ) => (d, h,
      (df.filter (fun r => dayNameOf r.ts = d ∧ hourOf r.ts = (h : ℤ))).length)))).flatten

/-- `df['timestamp'].max()` (line 1093): `none` models the `pd.isna`
case of an empty frame. -/
def latestTime (df : List Row) : Option ℚ :=
  match df.map (·.ts) with
  | [] => none
  | x :: xs => some (xs.foldl max x)

/-- The four possible outcomes of the `update_current_status` callback
(lines 1089-1123): the "No recent data available" div, the stale-data
warning div, the "No users are currently online" info div, and the
success div listing the online users. -/
inductive CurrentStatus
  | noData
  | stale (latest : ℚ)
  | nobodyOnline
  | online (latest : ℚ) (users : List String)
deriving DecidableEq, Repr

/-- `update_current_status(selected_users)` (lines 1089-1123) as a
function of the stored rows, the wall clock `now` and the dropdown
selection.  `(current_time - latest_time)` is compared with 15 minutes
(line 1100); the recent window is `timestamp >= latest_time - 15min`
(lines 1107-1108).  The displayed user list is
`sorted(recent_df['name'].unique())`; the sort is presentational and
not modelled (statements below are membership-based). -/
def update_current_status (df : List Row) (now : ℚ) (selected : List String) :
    CurrentStatus :=
  match latestTime df with
  | none => .noData
  | some latest =>
    if now - latest > 15 then .stale latest
    else
      let recent := df.filter (fun r => r.ts ≥ latest - 15)
      let recent' := if ¬ selected.isEmpty
        then recent.filter (fun r => selected.contains r.name) else recent
      let users := (recent'.map (·.name)).dedup
      if users.isEmpty then .nobodyOnline else .online latest users

/-- `name.lower().replace(' ', '_')` (lines 1787 / 1816): the user-id
normalization of the live tracker, character by character. -/
def normalizeId (name : String) : String :=
  ⟨name.data.map (fun c => if c = ' ' then '_' else c.toLower)⟩

/-- One completed session recorded by the live tracker
(`online_periods` entry, lines 1832-1836), tagged with the user id. -/
structure LiveSession where
  user     : String
  start    : ℚ
  stop     : ℚ
  duration : ℚ
deriving DecidableEq, Repr

/-- The live tracker's `activity_data` map restricted to what the
session logic reads: each tracked `user_id` with its optional
`online_since` instant (`none` = tracked but offline, i.e. the
`'online_since' not in ...` state). -/
abbrev Entries := List (String × Option ℚ)

/-- `user_id in self.activity_data` / `self.activity_data[user_id]`
combined: the `online_since` slot of a tracked user, or `none` if the
user is not tracked at all. -/
def lookupE (es : Entries) (u : String) : Option (Option ℚ) :=
  (es.find? (fun p => p.1 = u)).map (·.2)

/-- One iteration of the first loop of `update_activity_data`
(lines 1786-1805): a user observed online is added with
`online_since = t` if untracked, marked online if tracked-but-offline,
and left alone if already online. -/
def phase1Step (t : ℚ) (es : Entries) (name : String) : Entries :=
  let uid := normalizeId name
  match lookupE es uid with
  | none => es ++ [(uid, some t)]
  | some none => es.map (fun p => if p.1 = uid then (uid, some t) else p)
  | some (some _) => es

/-- The first loop of `update_activity_data`: `for name in
online_contacts: ...` (lines 1786-1805). -/
def phase1 (es : Entries) (names : List String) (t : ℚ) : Entries :=
  names.foldl (phase1Step t) es

/-- The `still_online` membership test of the second loop
(lines 1814-1818): some observed name normalizes to this user id. -/
def stillOnline (names : List String) (uid : String) : Bool :=
  names.any (fun n => normalizeId n = uid)

/-- The sessions closed by the second loop of `update_activity_data`
(lines 1808-1859): every tracked user that is online but absent from
the scan yields one completed session `{start: online_since, end: t,
duration: t - online_since}`. -/
def phase2Sessions (es : Entries) (names : List String) (t : ℚ) :
    List LiveSession :=
  es.filterMap (fun p => match p.2 with
    | some s => if stillOnline names p.1 then none else some ⟨p.1, s, t, t - s⟩
    | none => none)

/-- The entry updates of the second loop: `del
self.activity_data[user_id]['online_since']` (line 1857) for every user
going offline. -/
def phase2Entries (es : Entries) (names : List String) : Entries :=
  es.map (fun p => match p.2 with
    | some _ => if stillOnline names p.1 then p else (p.1, none)
    | none => p)

/-- The live tracker state: the `activity_data` entries plus all
completed sessions recorded so far (the union of the per-user
`online_periods` lists, in recording order). -/
structure TrackerState where
  entries  : Entries
  sessions : List LiveSession
deriving DecidableEq, Repr

/-- `FacebookActivityTracker.update_activity_data(online_contacts)`
(lines 1780-1873) at scan time `t`: first loop over the observed
contacts, then the offline sweep over the (updated) tracked users. -/
def update_activity_data (st : TrackerState) (names : List String) (t : ℚ) :
    TrackerState :=
  let es1 := phase1 st.entries names t
  { entries  := phase2Entries es1 names
    sessions := st.sessions ++ phase2Sessions es1 names t }

/-- A sequence of scans processed by the live tracker, each a snapshot
(list of observed display names) with its scan time. -/
def runScans (st : TrackerState) (scans : List (List String × ℚ)) :
    TrackerState :=
  scans.foldl (fun s p => update_activity_data s p.1 p.2) st

/-- Helper for reasoning about the dashboard session structure: the
`(start_index, end_index)` pairs described by a first start index, the
break list and the final index. -/
def idxPairs (s : ℕ) (bs : List ℕ) (last : ℕ) : List (ℕ × ℕ) :=
  match bs with
  | [] => [(s, last)]
  | b :: rest => (s, b) :: idxPairs (b + 1) rest last

/-! ## Basic structure of the break lists -/

theorem timeDiffs_length : ∀ ts : List ℚ, (timeDiffs ts).length = ts.length - 1
  | [] => rfl
  | [_] => rfl
  | a :: b :: rest => by
    have ih := timeDiffs_length (b :: rest)
    simp only [timeDiffs, List.length_cons] at ih ⊢
    omega

theorem timeDiffs_getD : ∀ (ts : List ℚ) (i : ℕ), i + 1 < ts.length →
    (timeDiffs ts).getD i 0 = ts.getD (i + 1) 0 - ts.getD i 0
  | [], _, h => by simp at h
  | [_], _, h => by simp at h
  | _ :: _ :: _, 0, _ => rfl
  | a :: b :: rest, (i+1), h => by
    have ih := timeDiffs_getD (b :: rest) i (by simpa using h)
    simpa [timeDiffs] using ih

theorem mem_sessionBreaks (ts : List ℚ) (G : ℚ) (i : ℕ) :
    i ∈ sessionBreaks ts G ↔
      i + 1 < ts.length ∧ ts.getD (i + 1) 0 - ts.getD i 0 > G := by
  unfold sessionBreaks
  simp only [List.mem_filter, List.mem_range, timeDiffs_length, decide_eq_true_eq]
  constructor
  · rintro ⟨hi, hg⟩
    have hi' : i + 1 < ts.length := by omega
    exact ⟨hi', by rwa [timeDiffs_getD ts i hi'] at hg⟩
  · rintro ⟨hi, hg⟩
    exact ⟨by omega, by rwa [timeDiffs_getD ts i hi]⟩

theorem metricsBreaks_eq (ts : List ℚ) : metricsBreaks ts = sessionBreaks ts 15 := rfl

theorem sessionBreaks_pairwise (ts : List ℚ) (G : ℚ) :
    (sessionBreaks ts G).Pairwise (· < ·) :=
  (List.pairwise_lt_range _).filter _

theorem sessionBreaks_bound (ts : List ℚ) (G : ℚ) :
    ∀ b ∈ sessionBreaks ts G, b + 1 < ts.length := by
  intro b hb
  exact ((mem_sessionBreaks ts G b).mp hb).1

/-! ## The dashboard session index structure -/

theorem zip_eq_idxPairs : ∀ (bs : List ℕ) (s last : ℕ),
    (s :: bs.map (· + 1)).zip (bs ++ [last]) = idxPairs s bs last
  | [], _, _ => rfl
  | b :: rest, s, last => by
    simpa [idxPairs] using zip_eq_idxPairs rest (b + 1) last

theorem sessionsOf_eq_idxPairs (ts : List ℚ) (G : ℚ) :
    sessionsOf ts G =
      (idxPairs 0 (sessionBreaks ts G) (ts.length - 1)).map
        (fun p => (ts.getD p.1 0, ts.getD p.2 0)) := by
  unfold sessionsOf sessionStarts sessionEnds
  rw [zip_eq_idxPairs]

theorem idxPairs_head_fst (s : ℕ) (bs : List ℕ) (last : ℕ) :
    ∃ c l', idxPairs s bs last = (s, c) :: l' := by
  cases bs <;> exact ⟨_, _, rfl⟩

theorem idxPairs_wf : ∀ (bs : List ℕ) (s last : ℕ),
    bs.Pairwise (· < ·) → (∀ b ∈ bs, b < last) → (∀ b ∈ bs, s ≤ b) → s ≤ last →
    (∀ p ∈ idxPairs s bs last, s ≤ p.1 ∧ p.1 ≤ p.2 ∧ p.2 ≤ last) ∧
      List.Chain' (fun p q => p.2 < q.1) (idxPairs s bs last)
  | [], s, last, _, _, _, hsl => by
    refine ⟨?_, ?_⟩
    · intro p hp
      simp only [idxPairs, List.mem_singleton] at hp
      subst hp
      exact ⟨le_refl _, hsl, le_refl _⟩
    · simp [idxPairs]
  | b :: rest, s, last, hpw, hlt, hsle, hsl => by
    have hb : b < last := hlt b (List.mem_cons_self b rest)
    have hsb : s ≤ b := hsle b (List.mem_cons_self b rest)
    have hrest : ∀ b' ∈ rest, b + 1 ≤ b' := by
      intro b' hb'
      exact (List.pairwise_cons.mp hpw).1 b' hb'
    have ih := idxPairs_wf rest (b + 1) last
      (List.pairwise_cons.mp hpw).2
      (fun b' hb' => hlt b' (List.mem_cons_of_mem b hb'))
      hrest hb
    refine ⟨?_, ?_⟩
    · intro p hp
      simp only [idxPairs, List.mem_cons] at hp
      rcases hp with rfl | hp
      · exact ⟨le_refl _, hsb, le_of_lt hb⟩
      · have := ih.1 p hp
        exact ⟨le_trans hsb (by omega), this.2.1, this.2.2⟩
    · show List.Chain' _ ((s, b) :: idxPairs (b + 1) rest last)
      rw [List.chain'_cons']
      refine ⟨?_, ih.2⟩
      intro y hy
      obtain ⟨c, l', hl⟩ := idxPairs_head_fst (b + 1) rest last
      rw [hl] at hy
      simp only [List.head?_cons, Option.mem_def, Option.some_inj] at hy
      subst hy
      show b < b + 1
      omega

theorem sorted_getD_mono (ts : List ℚ) (hs : ts.Sorted (· ≤ ·)) (i j : ℕ)
    (hij : i ≤ j) (hj : j < ts.length) : ts.getD i 0 ≤ ts.getD j 0 := by
  have hi : i < ts.length := Nat.lt_of_le_of_lt hij hj
  rw [List.getD_eq_getElem ts 0 hi, List.getD_eq_getElem ts 0 hj]
  rcases Nat.eq_or_lt_of_le hij with rfl | h
  · exact le_refl _
  · exact List.pairwise_iff_getElem.mp hs i j hi hj h

/-- C2: for every sorted per-user timestamp sequence and every gap
threshold `G`, the sessions produced by batch reconstruction are
non-overlapping and ordered: each session satisfies `start ≤ end`, and
the end of session `i` is `≤` the start of session `i+1`. -/
theorem sessions_nonoverlapping_ordered (ts : List ℚ) (G : ℚ)
    (hs : ts.Sorted (· ≤ ·)) :
    (∀ p ∈ sessionsOf ts G, p.1 ≤ p.2) ∧
      List.Chain' (fun p q : ℚ × ℚ => p.2 ≤ q.1) (sessionsOf ts G) := by
  cases ts with
  | nil =>
    have he : sessionsOf [] G = [(0, 0)] := rfl
    rw [he]
    constructor
    · intro p hp
      simp only [List.mem_singleton] at hp
      subst hp
      exact le_refl _
    · simp
  | cons x xs =>
    have hlast : (x :: xs).length - 1 < (x :: xs).length := by simp
    have wf := idxPairs_wf (sessionBreaks (x :: xs) G) 0 ((x :: xs).length - 1)
      (sessionBreaks_pairwise _ G)
      (fun b hb => by have := sessionBreaks_bound _ G b hb; omega)
      (fun b _ => Nat.zero_le b) (Nat.zero_le _)
    rw [sessionsOf_eq_idxPairs]
    constructor
    · intro p hp
      simp only [List.mem_map] at hp
      obtain ⟨q, hq, rfl⟩ := hp
      obtain ⟨-, h12, h2l⟩ := wf.1 q hq
      exact sorted_getD_mono _ hs q.1 q.2 h12 (by omega)
    · rw [List.chain'_map]
      have hc := wf.2
      rw [List.chain'_iff_get] at hc ⊢
      intro i hi
      have h1 := hc i hi
      have m2 := wf.1 _ (List.get_mem _ (i + 1) (by omega))
      exact sorted_getD_mono _ hs _ _ (le_of_lt h1)
        (by have := m2.2.1.trans m2.2.2; omega)

/-- C2 witness: the theorem applied to the concrete sorted sequence
09:00, 09:05, 09:30 (in minutes) with G = 15. -/
theorem sessions_nonoverlapping_ordered_witness :
    ([(540 : ℚ), 545, 570].Sorted (· ≤ ·)) ∧
    ((∀ p ∈ sessionsOf [540, 545, 570] 15, p.1 ≤ p.2) ∧
      List.Chain' (fun p q : ℚ × ℚ => p.2 ≤ q.1) (sessionsOf [540, 545, 570] 15)) :=
  ⟨by decide, sessions_nonoverlapping_ordered [540, 545, 570] 15 (by decide)⟩

theorem idxPairs_sum_le : ∀ (bs : List ℕ) (s last : ℕ) (ts : List ℚ),
    ts.Sorted (· ≤ ·) → last < ts.length →
    bs.Pairwise (· < ·) → (∀ b ∈ bs, b < last) → (∀ b ∈ bs, s ≤ b) → s ≤ last →
    ((idxPairs s bs last).map (fun p => ts.getD p.2 0 - ts.getD p.1 0)).sum
      ≤ ts.getD last 0 - ts.getD s 0
  | [], s, last, ts, _, _, _, _, _, _ => by simp [idxPairs]
  | b :: rest, s, last, ts, hs, hl, hpw, hlt, hsle, hsl => by
    have hb : b < last := hlt b (List.mem_cons_self b rest)
    have ih := idxPairs_sum_le rest (b + 1) last ts hs hl
      (List.pairwise_cons.mp hpw).2
      (fun b' hb' => hlt b' (List.mem_cons_of_mem b hb'))
      (fun b' hb' => (List.pairwise_cons.mp hpw).1 b' hb')
      hb
    simp only [idxPairs, List.map_cons, List.sum_cons]
    have hmono : ts.getD b 0 ≤ ts.getD (b + 1) 0 :=
      sorted_getD_mono ts hs b (b + 1) (by omega) (by omega)
    linarith

/-- C3: for every sorted per-user sequence with at least two
observations and every gap threshold, the sum of the reconstructed
session durations is at most the difference between the maximum
(`ts.getD (ts.length - 1) 0`, which the second and third conjuncts
identify as an upper bound attained in the list) and the minimum
(`ts.getD 0 0`, a lower bound attained in the list) observation
timestamp. -/
theorem session_durations_bounded (ts : List ℚ) (G : ℚ)
    (hs : ts.Sorted (· ≤ ·)) (h2 : 2 ≤ ts.length) :
    (sessionLengths ts G).sum ≤ ts.getD (ts.length - 1) 0 - ts.getD 0 0 ∧
      (∀ x ∈ ts, ts.getD 0 0 ≤ x ∧ x ≤ ts.getD (ts.length - 1) 0) ∧
      ts.getD 0 0 ∈ ts ∧ ts.getD (ts.length - 1) 0 ∈ ts := by
  have hlast : ts.length - 1 < ts.length := by omega
  refine ⟨?_, ?_, ?_, ?_⟩
  · unfold sessionLengths
    rw [sessionsOf_eq_idxPairs, List.map_map]
    have h := idxPairs_sum_le (sessionBreaks ts G) 0 (ts.length - 1) ts hs hlast
      (sessionBreaks_pairwise ts G)
      (fun b hb => by have := sessionBreaks_bound ts G b hb; omega)
      (fun b _ => Nat.zero_le b) (Nat.zero_le _)
    simpa [Function.comp] using h
  · intro x hx
    obtain ⟨i, hi, rfl⟩ := List.mem_iff_getElem.mp hx
    constructor
    · have h := sorted_getD_mono ts hs 0 i (Nat.zero_le i) hi
      rwa [List.getD_eq_getElem ts 0 hi] at h
    · have h := sorted_getD_mono ts hs i (ts.length - 1) (by omega) hlast
      rwa [List.getD_eq_getElem ts 0 hi] at h
  · rw [List.getD_eq_getElem ts 0 (by omega)]
    exact List.getElem_mem _
  · rw [List.getD_eq_getElem ts 0 hlast]
    exact List.getElem_mem _

/-- C3 witness: the theorem applied to the concrete sorted sequence
09:00, 09:05, 09:30 with G = 15. -/
theorem session_durations_bounded_witness :
    ([(540 : ℚ), 545, 570].Sorted (· ≤ ·)) ∧ 2 ≤ ([(540 : ℚ), 545, 570]).length ∧
    ((sessionLengths [540, 545, 570] 15).sum ≤
        [(540 : ℚ), 545, 570].getD (3 - 1) 0 - [(540 : ℚ), 545, 570].getD 0 0 ∧
      (∀ x ∈ [(540 : ℚ), 545, 570],
        [(540 : ℚ), 545, 570].getD 0 0 ≤ x ∧
          x ≤ [(540 : ℚ), 545, 570].getD (3 - 1) 0) ∧
      [(540 : ℚ), 545, 570].getD 0 0 ∈ [(540 : ℚ), 545, 570] ∧
      [(540 : ℚ), 545, 570].getD (3 - 1) 0 ∈ [(540 : ℚ), 545, 570]) :=
  ⟨by decide, by decide, session_durations_bounded [540, 545, 570] 15 (by decide) (by decide)⟩

/-- C4: in both batch sessionization code paths (the dashboard's
`calculate_sessions` and `_calculate_session_metrics`, the latter with
its fixed threshold of 15) a session break occurs at consecutive index
`i` if and only if the consecutive timestamp difference is strictly
greater than the gap threshold; in particular a gap exactly equal to
the threshold produces no break, keeping the two observations in the
same session. -/
theorem gap_strictly_greater_iff_break (ts : List ℚ) (G : ℚ) (i : ℕ) :
    (i ∈ sessionBreaks ts G ↔
      i + 1 < ts.length ∧ ts.getD (i + 1) 0 - ts.getD i 0 > G) ∧
    (i ∈ metricsBreaks ts ↔
      i + 1 < ts.length ∧ ts.getD (i + 1) 0 - ts.getD i 0 > 15) ∧
    (ts.getD (i + 1) 0 - ts.getD i 0 = G → i ∉ sessionBreaks ts G) ∧
    (ts.getD (i + 1) 0 - ts.getD i 0 = 15 → i ∉ metricsBreaks ts) := by
  refine ⟨mem_sessionBreaks ts G i, ?_, ?_, ?_⟩
  · rw [metricsBreaks_eq]
    exact mem_sessionBreaks ts 15 i
  · intro he hmem
    have h := ((mem_sessionBreaks ts G i).mp hmem).2
    rw [he] at h
    exact lt_irrefl G h
  · intro he hmem
    rw [metricsBreaks_eq] at hmem
    have h := ((mem_sessionBreaks ts 15 i).mp hmem).2
    rw [he] at h
    exact lt_irrefl (15 : ℚ) h

/-- C4 witness: with timestamps 0, 15, 45 and G = 15 the first gap is
exactly 15 and produces no break in either code path, while the
second gap (30) breaks in both. -/
theorem gap_strictly_greater_iff_break_witness :
    0 ∉ sessionBreaks [(0 : ℚ), 15, 45] 15 ∧ 0 ∉ metricsBreaks [(0 : ℚ), 15, 45] ∧
      1 ∈ sessionBreaks [(0 : ℚ), 15, 45] 15 ∧ 1 ∈ metricsBreaks [(0 : ℚ), 15, 45] :=
  ⟨(gap_strictly_greater_iff_break [0, 15, 45] 15 0).2.2.1
      (by norm_num [List.getD_cons_succ, List.getD_cons_zero]),
   (gap_strictly_greater_iff_break [0, 15, 45] 15 0).2.2.2
      (by norm_num [List.getD_cons_succ, List.getD_cons_zero]),
   ((gap_strictly_greater_iff_break [0, 15, 45] 15 1).1).mpr
      (by norm_num [List.getD_cons_succ, List.getD_cons_zero]),
   ((gap_strictly_greater_iff_break [0, 15, 45] 15 1).2.1).mpr
      (by norm_num [List.getD_cons_succ, List.getD_cons_zero])⟩

/-- Scenario A input: observations for "Alice" at 09:00, 09:05 and
09:30, in minutes since midnight. -/
def dfAlice : List Row := [⟨"Alice", 540⟩, ⟨"Alice", 545⟩, ⟨"Alice", 570⟩]

/-- C1: batch reconstruction with G = 15 on Alice's observations at
09:00, 09:05, 09:30 yields exactly two sessions, [09:00–09:05] with
duration 5 minutes and the degenerate [09:30–09:30] with duration 0,
and Alice's summary row reports 2 total sessions; only the 25-minute
gap breaks. -/
theorem scenarioA_two_sessions :
    userTs dfAlice "Alice" = [540, 545, 570] ∧
    sessionBreaks [540, 545, 570] 15 = [1] ∧
    sessionsOf [540, 545, 570] 15 = [(540, 545), (570, 570)] ∧
    sessionLengths [540, 545, 570] 15 = [5, 0] ∧
    (rowFor dfAlice 15 "Alice").map (fun r => r.totalSessions) = some 2 := by
  have h0 : userTs dfAlice "Alice" = [540, 545, 570] := by
    norm_num [userTs, userRows, dfAlice, List.filter, List.insertionSort,
      List.orderedInsert]
  have h1 : sessionBreaks [540, 545, 570] 15 = [1] := by
    norm_num [sessionBreaks, timeDiffs, List.range, List.range.loop, List.filter]
  have h2 : sessionsOf [540, 545, 570] 15 = [(540, 545), (570, 570)] := by
    simp [sessionsOf, sessionStarts, sessionEnds, h1, List.getD]
  have h3 : sessionLengths [540, 545, 570] 15 = [5, 0] := by
    simp [sessionLengths, h2]
    norm_num
  refine ⟨h0, h1, h2, h3, ?_⟩
  have h4 : (dfAlice.map (fun r => r.name)).dedup = ["Alice"] := by
    simp [dfAlice, List.dedup_cons_of_mem, List.dedup_cons_of_not_mem]
  simp [rowFor, calculate_sessions, dfAlice, h4]
  constructor
  · simp [dashSummary]
  · show (dashSummary "Alice" (userTs dfAlice "Alice") 15).totalSessions = 2
    simp [dashSummary, h0, h1]

/-! ## Dense zero-filled aggregation grids -/

theorem hour_counts_getD (df : List Row) (h : ℕ) (hh : h < 24) :
    (hour_counts df).getD h (0, 0) =
      (h, (df.filter (fun r => hourOf r.ts = (h : ℤ))).length) := by
  have hlen : h < (hour_counts df).length := by simp [hour_counts]; omega
  rw [List.getD_eq_getElem _ _ hlen]
  simp [hour_counts]

theorem day_counts_getD (df : List Row) (d : ℕ) (hd : d < 7) :
    (day_counts df).getD d ("", 0) =
      (day_order.getD d "",
        (df.filter (fun r => dayNameOf r.ts = day_order.getD d "")).length) := by
  have hlen : d < (day_counts df).length := by simp [day_counts, day_order]; omega
  have hlen' : d < day_order.length := by simp [day_order]; omega
  rw [List.getD_eq_getElem _ _ hlen, List.getD_eq_getElem _ _ hlen']
  simp [day_counts]

theorem heatmap_cell_mem (df : List Row) (d h : ℕ) (hd : d < 7) (hh : h < 24) :
    (day_order.getD d "", h,
      (df.filter (fun r => dayNameOf r.ts = day_order.getD d "" ∧
        hourOf r.ts = (h : ℤ))).length) ∈ heatmap_grid df := by
  have hlen' : d < day_order.length := by simp [day_order]; omega
  unfold heatmap_grid
  rw [List.mem_flatten]
  refine ⟨(List.range 24).map (fun h' => (day_order.getD d "", h',
    (df.filter (fun r => dayNameOf r.ts = day_order.getD d "" ∧
      hourOf r.ts = (h' : ℤ))).length)), ?_, ?_⟩
  · rw [List.mem_map]
    refine ⟨day_order.getD d "", ?_, rfl⟩
    rw [List.getD_eq_getElem _ _ hlen']
    exact List.getElem_mem _
  · rw [List.mem_map]
    exact ⟨h, List.mem_range.mpr hh, rfl⟩

/-- C6: for every input observation set, however sparse (including
empty), the hour-of-day histogram has exactly 24 buckets, the weekday
histogram has exactly 7 buckets in Monday…Sunday order, the
weekday-by-hour heatmap grid contains all 7×24 cells, each bucket
holds exactly the number of matching observations, and a bucket with
no observation holds 0. -/
theorem dense_zero_filled_grids (df : List Row) (h : Fin 24) (d : Fin 7) :
    (hour_counts df).length = 24 ∧
    (day_counts df).length = 7 ∧
    (day_counts df).map Prod.fst = day_order ∧
    (heatmap_grid df).length = 7 * 24 ∧
    (hour_counts df).getD h.1 (0, 0) =
      (h.1, (df.filter (fun r => hourOf r.ts = (h.1 : ℤ))).length) ∧
    ((∀ r ∈ df, hourOf r.ts ≠ (h.1 : ℤ)) →
      (hour_counts df).getD h.1 (0, 0) = (h.1, 0)) ∧
    (day_counts df).getD d.1 ("", 0) =
      (day_order.getD d.1 "",
        (df.filter (fun r => dayNameOf r.ts = day_order.getD d.1 "")).length) ∧
    ((∀ r ∈ df, dayNameOf r.ts ≠ day_order.getD d.1 "") →
      (day_counts df).getD d.1 ("", 0) = (day_order.getD d.1 "", 0)) ∧
    (day_order.getD d.1 "", h.1,
      (df.filter (fun r => dayNameOf r.ts = day_order.getD d.1 "" ∧
        hourOf r.ts = (h.1 : ℤ))).length) ∈ heatmap_grid df ∧
    ((∀ r ∈ df, ¬(dayNameOf r.ts = day_order.getD d.1 "" ∧
        hourOf r.ts = (h.1 : ℤ))) →
      (day_order.getD d.1 "", h.1, (0 : ℕ)) ∈ heatmap_grid df) := by
  refine ⟨?_, ?_, ?_, ?_, hour_counts_getD df h.1 h.2, ?_, day_counts_getD df d.1 d.2, ?_,
    heatmap_cell_mem df d.1 h.1 d.2 h.2, ?_⟩
  · simp [hour_counts]
  · simp [day_counts, day_order]
  · simp [day_counts, List.map_map, Function.comp_def]
  · simp [heatmap_grid, day_order]
  · intro hno
    rw [hour_counts_getD df h.1 h.2]
    have hf : df.filter (fun r => hourOf r.ts = (h.1 : ℤ)) = [] := by
      simp only [List.filter_eq_nil_iff, decide_eq_true_eq]
      exact hno
    rw [hf]
    rfl
  · intro hno
    rw [day_counts_getD df d.1 d.2]
    have hf : df.filter (fun r => dayNameOf r.ts = day_order.getD d.1 "") = [] := by
      simp only [List.filter_eq_nil_iff, decide_eq_true_eq]
      exact hno
    rw [hf]
    rfl
  · intro hno
    have : df.filter (fun r => dayNameOf r.ts = day_order.getD d.1 "" ∧
        hourOf r.ts = (h.1 : ℤ)) = [] := by
      simp only [List.filter_eq_nil_iff, decide_eq_true_eq]
      exact hno
    have hm := heatmap_cell_mem df d.1 h.1 d.2 h.2
    rwa [this] at hm

/-- C6 witness: the theorem applied to the empty frame at hour 0 and
weekday 0 (Monday). -/
theorem dense_zero_filled_grids_witness :
    (hour_counts []).length = 24 ∧
    (hour_counts []).getD 0 (0, 0) = (0, 0) ∧
    ("Monday", (0 : ℕ), (0 : ℕ)) ∈ heatmap_grid [] :=
  ⟨(dense_zero_filled_grids [] 0 0).1,
   (dense_zero_filled_grids [] 0 0).2.2.2.2.2.1 (by simp),
   (dense_zero_filled_grids [] 0 0).2.2.2.2.2.2.2.2.2 (by simp)⟩

/-- C9 (amended): on the empty dataset the dashboard queries return
empty structures — `calculate_sessions` the empty table, the three
aggregation grids fully zero-filled dense grids, `update_current_status`
the no-data marker — while `_calculate_session_metrics` returns `None`
(handled by its caller), not an empty structure. -/
theorem empty_dataset_results (now : ℚ) (G : ℚ) :
    calculate_sessions [] G = [] ∧
    calculate_session_metrics [] = none ∧
    hour_counts [] = (List.range 24).map (fun h => (h, 0)) ∧
    day_counts [] = day_order.map (fun d => (d, 0)) ∧
    heatmap_grid [] =
      (day_order.map (fun d => (List.range 24).map (fun h => (d, h, (0 : ℕ))))).flatten ∧
    update_current_status [] now [] = CurrentStatus.noData := by
  refine ⟨rfl, rfl, ?_, ?_, ?_, rfl⟩ <;> simp [hour_counts, day_counts, heatmap_grid]

/-- C9 counterexample: on the empty dataset
`DatabaseManager._calculate_session_metrics` returns `None` (null),
not an empty structure, contradicting the claim that no aggregate or
session query ever returns null. -/
theorem metrics_none_on_empty : calculate_session_metrics [] = none := rfl

/-! ## Currently-online derivation -/

theorem foldl_max_spec : ∀ (xs : List ℚ) (x : ℚ),
    (xs.foldl max x = x ∨ xs.foldl max x ∈ xs) ∧
      x ≤ xs.foldl max x ∧ ∀ y ∈ xs, y ≤ xs.foldl max x
  | [], x => ⟨Or.inl rfl, le_refl x, by simp⟩
  | y :: ys, x => by
    have ih := foldl_max_spec ys (max x y)
    simp only [List.foldl_cons]
    refine ⟨?_, ?_, ?_⟩
    · rcases ih.1 with he | hm
      · rcases max_choice x y with hx | hy
        · exact Or.inl (by rw [he, hx])
        · exact Or.inr (by rw [he, hy]; exact List.mem_cons_self y ys)
      · exact Or.inr (List.mem_cons_of_mem y hm)
    · exact le_trans (le_max_left x y) ih.2.1
    · intro z hz
      rcases List.mem_cons.mp hz with rfl | hz'
      · exact le_trans (le_max_right x z) ih.2.1
      · exact ih.2.2 z hz'

theorem latestTime_attained (df : List Row) (latest : ℚ)
    (h : latestTime df = some latest) :
    (∃ r ∈ df, r.ts = latest) ∧ ∀ r ∈ df, r.ts ≤ latest := by
  rcases hdf : df.map (fun r => r.ts) with - | ⟨x, xs⟩
  · rw [latestTime, hdf] at h
    exact absurd h (by simp)
  · rw [latestTime, hdf] at h
    have hfold := foldl_max_spec xs x
    have hlatest : xs.foldl max x = latest := by
      simpa using h
    constructor
    · have hmem : latest ∈ x :: xs := by
        rcases hfold.1 with he | hm
        · rw [← hlatest, he]; exact List.mem_cons_self x xs
        · rw [← hlatest]; exact List.mem_cons_of_mem x hm
      rw [← hdf] at hmem
      obtain ⟨r, hr, hrts⟩ := List.mem_map.mp hmem
      exact ⟨r, hr, hrts⟩
    · intro r hr
      have : r.ts ∈ x :: xs := by
        rw [← hdf]
        exact List.mem_map.mpr ⟨r, hr, rfl⟩
      rcases List.mem_cons.mp this with he | hm
      · rw [he, ← hlatest]; exact hfold.2.1
      · rw [← hlatest]; exact hfold.2.2 _ hm

/-- C8: with no dropdown selection, when the data is fresh
(`now − T_max ≤ 15`) the callback reports online exactly the users
with an observation in the closed interval `[T_max − 15, T_max]`
(a nonempty set, so the successful branch is taken); when
`now − T_max > 15` it returns the stale-dataset signal, which is a
different constructor from the non-stale "no one is online" signal. -/
theorem currently_online_spec (df : List Row) (now latest : ℚ)
    (h : latestTime df = some latest) :
    (now - latest > 15 →
      update_current_status df now [] = CurrentStatus.stale latest) ∧
    (¬ now - latest > 15 →
      ∃ users, update_current_status df now [] = CurrentStatus.online latest users ∧
        users ≠ [] ∧
        ∀ u, u ∈ users ↔ ∃ r ∈ df, r.name = u ∧ latest - 15 ≤ r.ts ∧ r.ts ≤ latest) ∧
    CurrentStatus.stale latest ≠ CurrentStatus.nobodyOnline := by
  have hatt := latestTime_attained df latest h
  refine ⟨?_, ?_, by simp⟩
  · intro hstale
    simp only [update_current_status, h]
    rw [if_pos hstale]
  · intro hfresh
    simp only [update_current_status, h, List.isEmpty_nil, not_true, if_false]
    rw [if_neg hfresh]
    set users := ((df.filter (fun r => r.ts ≥ latest - 15)).map (fun r => r.name)).dedup
      with husers
    have hne : users ≠ [] := by
      obtain ⟨r, hr, hrts⟩ := hatt.1
      have hrmem : r ∈ df.filter (fun r => r.ts ≥ latest - 15) :=
        List.mem_filter.mpr ⟨hr, by simp only [decide_eq_true_eq, ge_iff_le]; linarith⟩
      have hname : r.name ∈ users := by
        rw [husers]
        exact List.mem_dedup.mpr (List.mem_map.mpr ⟨r, hrmem, rfl⟩)
      exact List.ne_nil_of_mem hname
    have hemp : ¬ (users.isEmpty = true) := fun habs => hne (List.isEmpty_iff.mp habs)
    rw [if_neg hemp]
    refine ⟨users, rfl, hne, ?_⟩
    intro u
    rw [husers]
    simp only [List.mem_dedup, List.mem_map, List.mem_filter, ge_iff_le,
      decide_eq_true_eq]
    constructor
    · rintro ⟨r, ⟨hr, hge⟩, rfl⟩
      exact ⟨r, hr, rfl, hge, hatt.2 r hr⟩
    · rintro ⟨r, hr, rfl, hge, -⟩
      exact ⟨r, ⟨hr, hge⟩, rfl⟩

/-- C8 witness: T_max = 10:00 (600 min), now = 10:20 (620 min): the
whole dataset is stale and the stale signal, not the nobody-online
signal, is produced. -/
theorem currently_online_spec_witness :
    update_current_status [⟨"a", 600⟩] 620 [] = CurrentStatus.stale 600 ∧
      CurrentStatus.stale (600 : ℚ) ≠ CurrentStatus.nobodyOnline :=
  ⟨(currently_online_spec [⟨"a", 600⟩] 620 600 rfl).1 (by norm_num),
   (currently_online_spec [⟨"a", 600⟩] 620 600 rfl).2.2⟩

/-! ## Summary-row lookup helpers -/

theorem find?_eq_self (u : String) : ∀ names : List String, u ∈ names →
    names.find? (fun v => v = u) = some u
  | [], h => absurd h (by simp)
  | v :: rest, h => by
    by_cases hv : v = u
    · subst hv
      simp [List.find?_cons]
    · have hmem : u ∈ rest := by
        rcases List.mem_cons.mp h with he | h'
        · exact absurd he.symm hv
        · exact h'
      rw [List.find?_cons, decide_eq_false hv]
      exact find?_eq_self u rest hmem

theorem rowFor_eq (df : List Row) (G : ℚ) (u : String)
    (h2 : 2 ≤ df.length) (hu : u ∈ df.map (fun r => r.name)) :
    rowFor df G u = some (dashSummary u (userTs df u) G) := by
  unfold rowFor calculate_sessions
  rw [if_neg (by omega)]
  rw [List.find?_map]
  have hdecomp : ((fun r : SummaryRow => decide (r.name = u)) ∘
      (fun v => dashSummary v (userTs df v) G)) = fun v => decide (v = u) := by
    funext v
    rfl
  rw [hdecomp, find?_eq_self u _ (List.mem_dedup.mpr hu)]
  rfl

theorem metrics_skips_short_users (df : List Row) (u : String)
    (h1len : (userRows df u).length < 2) :
    ∀ rows, calculate_session_metrics df = some rows → ∀ r ∈ rows, r.name ≠ u := by
  intro rows hrows r hr
  unfold calculate_session_metrics at hrows
  by_cases hlen : df.length < 2
  · rw [if_pos hlen] at hrows
    exact absurd hrows (by simp)
  · rw [if_neg hlen] at hrows
    by_cases hemp : ((((df.map (fun r => r.name)).dedup).filter
        (fun v => ¬ (userRows df v).length < 2)).map
      (fun v => dbSummary v (userTs df v))).isEmpty
    · rw [if_pos hemp] at hrows
      exact absurd hrows (by simp)
    · rw [if_neg hemp] at hrows
      have hrows' := Option.some.inj hrows
      subst hrows'
      obtain ⟨v, hv, hrv⟩ := List.mem_map.mp hr
      have hpred := (List.mem_filter.mp hv).2
      simp at hpred
      intro habs
      rw [← hrv] at habs
      have hvu : v = u := habs
      subst hvu
      omega

/-- C5 counterexample: a single observation for "Bob" at 14:00 (840
minutes) as the whole dataset yields no summary row and no session at
all: `calculate_sessions` returns the empty frame because the whole
input has fewer than 2 rows, and `_calculate_session_metrics` returns
`None` — so no degenerate session exists and `total_sessions = 1` is
reported nowhere, contrary to the claim. -/
theorem single_observation_alone_no_row :
    calculate_sessions [⟨"Bob", 840⟩] 15 = [] ∧
      calculate_session_metrics [⟨"Bob", 840⟩] = none ∧
      rowFor [⟨"Bob", 840⟩] 15 "Bob" = none :=
  ⟨rfl, rfl, rfl⟩

/-- C5 (amended): in `calculate_sessions`, provided the whole input
frame has at least two rows, a user whose sorted timestamp list is the
single observation `[t]` gets a summary row with `total_sessions = 1`
arising from the single degenerate session `(t, t)` of duration 0;
when that observation is the entire dataset the result is the empty
frame instead (see the counterexample), and
`_calculate_session_metrics` always skips such users. -/
theorem single_observation_degenerate (df : List Row) (u : String) (t : ℚ)
    (h2 : 2 ≤ df.length) (h1 : userTs df u = [t]) :
    rowFor df 15 u = some (dashSummary u [t] 15) ∧
      (dashSummary u [t] 15).totalSessions = 1 ∧
      sessionsOf [t] 15 = [(t, t)] ∧
      sessionLengths [t] 15 = [0] ∧
      (∀ rows, calculate_session_metrics df = some rows → ∀ r ∈ rows, r.name ≠ u) := by
  have hlen1 : (userRows df u).length = 1 := by
    have hperm := (List.perm_insertionSort (· ≤ ·)
      ((userRows df u).map (fun r => r.ts))).length_eq
    have hl := congrArg List.length h1
    rw [userTs] at hl
    simp only [List.length_map] at hperm
    simp only [List.length_singleton] at hl
    omega
  have hu : u ∈ df.map (fun r => r.name) := by
    have hne : userRows df u ≠ [] := by
      intro habs
      rw [habs] at hlen1
      simp at hlen1
    obtain ⟨r, hr⟩ := List.exists_mem_of_ne_nil _ hne
    have hr' := List.mem_filter.mp hr
    exact List.mem_map.mpr ⟨r, hr'.1, by simpa using hr'.2⟩
  refine ⟨?_, rfl, rfl, ?_, metrics_skips_short_users df u (by omega)⟩
  · rw [rowFor_eq df 15 u h2 hu, h1]
  · show [t - t] = [0]
    rw [sub_self]

/-- C5 witness: "Bob" with the single observation 14:00 inside a frame
that also contains one observation of "Ann". -/
theorem single_observation_degenerate_witness :
    2 ≤ ([⟨"Bob", 840⟩, ⟨"Ann", 0⟩] : List Row).length ∧
    userTs [⟨"Bob", 840⟩, ⟨"Ann", 0⟩] "Bob" = [840] ∧
    (rowFor [⟨"Bob", 840⟩, ⟨"Ann", 0⟩] 15 "Bob" =
        some (dashSummary "Bob" [840] 15) ∧
      (dashSummary "Bob" [(840 : ℚ)] 15).totalSessions = 1 ∧
      sessionsOf [(840 : ℚ)] 15 = [(840, 840)] ∧
      sessionLengths [(840 : ℚ)] 15 = [0] ∧
      (∀ rows, calculate_session_metrics [⟨"Bob", 840⟩, ⟨"Ann", 0⟩] = some rows →
        ∀ r ∈ rows, r.name ≠ "Bob")) :=
  ⟨by decide, by decide,
    single_observation_degenerate [⟨"Bob", 840⟩, ⟨"Ann", 0⟩] "Bob" 840
      (by decide) (by decide)⟩

/-! ## Equivalence of the two batch sessionization implementations -/

theorem metricsLoop_length (k : ℕ) : ∀ (bs starts ends : List ℕ) (i : ℕ),
    (metricsLoop k starts ends bs i).1.length = starts.length ∧
      (metricsLoop k starts ends bs i).2.length = ends.length
  | [], _, _, _ => ⟨rfl, rfl⟩
  | b :: bs, starts, ends, i => by
    have ih := metricsLoop_length k bs
      (if i < k - 1 then starts.set (i + 1) (b + 1) else starts)
      (ends.set i b) (i + 1)
    rw [metricsLoop]
    constructor
    · rw [ih.1]
      by_cases h : i < k - 1 <;> simp [h]
    · rw [ih.2, List.length_set]

theorem metricsLoop_ends_getD (k : ℕ) : ∀ (bs starts ends : List ℕ) (i j : ℕ),
    i + bs.length ≤ ends.length →
    (metricsLoop k starts ends bs i).2.getD j 0 =
      if i ≤ j ∧ j < i + bs.length then bs.getD (j - i) 0 else ends.getD j 0
  | [], starts, ends, i, j, _ => by
    rw [metricsLoop]
    simp only [List.length_nil, Nat.add_zero]
    rw [if_neg (by omega)]
  | b :: bs, starts, ends, i, j, hlen => by
    simp only [List.length_cons] at hlen
    rw [metricsLoop]
    have hlen' : (i + 1) + bs.length ≤ (ends.set i b).length := by
      simp only [List.length_set]
      omega
    rw [metricsLoop_ends_getD k bs _ (ends.set i b) (i + 1) j hlen']
    by_cases h1 : i + 1 ≤ j ∧ j < i + 1 + bs.length
    · rw [if_pos h1, if_pos (by simp only [List.length_cons]; omega)]
      have he : j - i = (j - (i + 1)) + 1 := by omega
      rw [he, List.getD_cons_succ]
    · rw [if_neg h1]
      by_cases h2 : j = i
      · subst h2
        rw [if_pos (by simp only [List.length_cons]; omega)]
        rw [List.getD_eq_getElem _ _ (by simp only [List.length_set]; omega),
          Nat.sub_self, List.getD_cons_zero]
        exact List.getElem_set_self _
      · rw [if_neg (by simp only [List.length_cons]; omega)]
        by_cases hj : j < ends.length
        · rw [List.getD_eq_getElem _ _ (by simp only [List.length_set]; omega),
            List.getD_eq_getElem _ _ hj]
          exact List.getElem_set_ne (by omega) _
        · rw [List.getD_eq_default _ _ (by simp only [List.length_set]; omega),
            List.getD_eq_default _ _ (by omega)]

theorem metricsLoop_starts_getD (k : ℕ) : ∀ (bs starts ends : List ℕ) (i j : ℕ),
    i + bs.length = k → k < starts.length →
    (metricsLoop k starts ends bs i).1.getD j 0 =
      if i + 1 ≤ j ∧ j < k then bs.getD (j - i - 1) 0 + 1 else starts.getD j 0
  | [], starts, ends, i, j, hik, _ => by
    simp only [List.length_nil, Nat.add_zero] at hik
    rw [metricsLoop, if_neg (by omega)]
  | b :: bs, starts, ends, i, j, hik, hk => by
    simp only [List.length_cons] at hik
    rw [metricsLoop]
    have hlen' : k < (if i < k - 1 then starts.set (i + 1) (b + 1) else starts).length := by
      by_cases h : i < k - 1
      · rw [if_pos h, List.length_set]
        exact hk
      · rw [if_neg h]
        exact hk
    rw [metricsLoop_starts_getD k bs _ (ends.set i b) (i + 1) j (by omega) hlen']
    by_cases h1 : i + 2 ≤ j ∧ j < k
    · rw [if_pos (by omega), if_pos (by omega)]
      have he : j - i - 1 = (j - (i + 1) - 1) + 1 := by omega
      rw [he, List.getD_cons_succ]
    · rw [if_neg (by omega)]
      by_cases h2 : j = i + 1 ∧ j < k
      · obtain ⟨he, hjk⟩ := h2
        subst he
        rw [if_pos (show i < k - 1 by omega)]
        rw [if_pos (show i + 1 ≤ i + 1 ∧ i + 1 < k from ⟨le_refl _, hjk⟩)]
        rw [List.getD_eq_getElem _ _ (by simp only [List.length_set]; omega),
          List.getElem_set_self _]
        have hz : i + 1 - i - 1 = 0 := by omega
        rw [hz, List.getD_cons_zero]
      · have hcond : ¬(i + 1 ≤ j ∧ j < k) := by
          intro hc
          rcases Nat.lt_or_ge j (i + 2) with hj2 | hj2
          · exact h2 ⟨by omega, hc.2⟩
          · exact h1 ⟨by omega, hc.2⟩
        rw [if_neg hcond]
        by_cases hik2 : i < k - 1
        · rw [if_pos hik2]
          have hne : j ≠ i + 1 := by
            intro habs
            exact h2 ⟨habs, by omega⟩
          by_cases hj : j < starts.length
          · rw [List.getD_eq_getElem _ _ (by simp only [List.length_set]; omega),
              List.getD_eq_getElem _ _ hj]
            exact List.getElem_set_ne (by omega) _
          · rw [List.getD_eq_default _ _ (by simp only [List.length_set]; omega),
              List.getD_eq_default _ _ (by omega)]
        · rw [if_neg hik2]

theorem list_ext_getD {l₁ l₂ : List ℕ} (hlen : l₁.length = l₂.length)
    (h : ∀ j, l₁.getD j 0 = l₂.getD j 0) : l₁ = l₂ := by
  apply List.ext_getElem hlen
  intro i h₁ h₂
  have hi := h i
  rwa [List.getD_eq_getElem _ _ h₁, List.getD_eq_getElem _ _ h₂] at hi

theorem replicate_getD_zero (n j : ℕ) : (List.replicate n (0 : ℕ)).getD j 0 = 0 := by
  by_cases hj : j < n
  · rw [List.getD_eq_getElem _ _ (by simpa using hj)]
    simp
  · exact List.getD_eq_default _ _ (by simpa using hj)

theorem getLastD_eq_getD (l : List ℕ) : l.getLastD 0 = l.getD (l.length - 1) 0 := by
  induction l with
  | nil => rfl
  | cons x xs ih => cases xs <;> simp_all [List.getLastD]

theorem map_succ_getD (l : List ℕ) (j : ℕ) (hj : j < l.length) :
    (l.map (· + 1)).getD j 0 = l.getD j 0 + 1 := by
  rw [List.getD_eq_getElem _ _ (by simpa using hj), List.getD_eq_getElem _ _ hj]
  simp

theorem getD_set_self (l : List ℕ) (i v : ℕ) (hi : i < l.length) :
    (l.set i v).getD i 0 = v := by
  rw [List.getD_eq_getElem _ _ (by rw [List.length_set]; exact hi)]
  exact List.getElem_set_self _

theorem getD_set_ne (l : List ℕ) (i j v : ℕ) (hne : i ≠ j) :
    (l.set i v).getD j 0 = l.getD j 0 := by
  by_cases hj : j < l.length
  · rw [List.getD_eq_getElem _ _ (by rw [List.length_set]; exact hj),
      List.getD_eq_getElem _ _ hj]
    exact List.getElem_set_ne hne _
  · rw [List.getD_eq_default _ _ (by rw [List.length_set]; omega),
      List.getD_eq_default _ _ (by omega)]

theorem dbStartsEnds_eq (ts : List ℚ) :
    dbStartsEnds ts = (sessionStarts ts 15, sessionEnds ts 15) := by
  simp only [dbStartsEnds, metricsBreaks_eq]
  set B := sessionBreaks ts 15 with hB
  set k := B.length with hk
  set p := metricsLoop k (List.replicate (k + 1) 0) (List.replicate (k + 1) 0) B 0 with hp
  have hplen1 : p.1.length = k + 1 := by
    rw [hp, (metricsLoop_length k B _ _ 0).1, List.length_replicate]
  have hplen2 : p.2.length = k + 1 := by
    rw [hp, (metricsLoop_length k B _ _ 0).2, List.length_replicate]
  have hsgetD : ∀ j, p.1.getD j 0 =
      if 1 ≤ j ∧ j < k then B.getD (j - 1) 0 + 1 else 0 := by
    intro j
    rw [hp, metricsLoop_starts_getD k B _ _ 0 j (by omega)
      (by rw [List.length_replicate]; omega)]
    by_cases hc : 0 + 1 ≤ j ∧ j < k
    · rw [if_pos hc, if_pos (by omega)]
      have hz : j - 0 - 1 = j - 1 := by omega
      rw [hz]
    · rw [if_neg hc, if_neg (by omega), replicate_getD_zero]
  have hegetD : ∀ j, p.2.getD j 0 =
      if j < k then B.getD j 0 else 0 := by
    intro j
    rw [hp, metricsLoop_ends_getD k B _ _ 0 j (by rw [List.length_replicate]; omega)]
    by_cases hc : 0 ≤ j ∧ j < 0 + k
    · rw [if_pos hc, if_pos (by omega)]
      have hz : j - 0 = j := by omega
      rw [hz]
    · rw [if_neg hc, if_neg (by omega), replicate_getD_zero]
  have hk1 : k + 1 - 1 = k := rfl
  refine Prod.ext ?_ ?_
  · show (if 0 < k then p.1.set (k + 1 - 1) (B.getLastD 0 + 1) else p.1) =
      sessionStarts ts 15
    have hrhslen : (sessionStarts ts 15).length = k + 1 := by
      simp [sessionStarts, hB, hk]
    by_cases hkpos : 0 < k
    · rw [if_pos hkpos, hk1]
      apply list_ext_getD (by rw [List.length_set]; omega)
      intro j
      show _ = (0 :: B.map (· + 1)).getD j 0
      by_cases hjk : j = k
      · subst hjk
        rw [getD_set_self p.1 k _ (by omega), getLastD_eq_getD, ← hk]
        have hj' : k = (k - 1) + 1 := by omega
        rw [hj', List.getD_cons_succ, map_succ_getD B (k - 1) (by omega)]
        have hz : k - 1 + 1 - 1 = k - 1 := by omega
        rw [hz]
      · rw [getD_set_ne p.1 k j _ (fun habs => hjk habs.symm), hsgetD j]
        rcases Nat.eq_zero_or_pos j with rfl | hjpos
        · rw [if_neg (by omega), List.getD_cons_zero]
        · have hj' : j = (j - 1) + 1 := by omega
          rw [hj', List.getD_cons_succ]
          by_cases hjlt : (j - 1) + 1 < k
          · rw [if_pos ⟨by omega, hjlt⟩, map_succ_getD B (j - 1) (by omega)]
            have hz : j - 1 + 1 - 1 = j - 1 := by omega
            rw [hz]
          · rw [if_neg (by omega),
              List.getD_eq_default _ _ (by simp only [List.length_map]; omega)]
    · rw [if_neg hkpos]
      apply list_ext_getD (by omega)
      intro j
      rw [hsgetD j, if_neg (by omega)]
      show 0 = (0 :: B.map (· + 1)).getD j 0
      rcases j with - | j0
      · rw [List.getD_cons_zero]
      · rw [List.getD_cons_succ,
          List.getD_eq_default _ _ (by simp only [List.length_map]; omega)]
  · show p.2.set (k + 1 - 1) (ts.length - 1) = sessionEnds ts 15
    have hrhslen : (sessionEnds ts 15).length = k + 1 := by
      simp [sessionEnds, hB, hk]
    rw [hk1]
    apply list_ext_getD (by rw [List.length_set]; omega)
    intro j
    show _ = (B ++ [ts.length - 1]).getD j 0
    by_cases hjk : j = k
    · subst hjk
      rw [getD_set_self p.2 k _ (by omega),
        List.getD_append_right B _ 0 k (by omega), ← hk, Nat.sub_self,
        List.getD_cons_zero]
    · rw [getD_set_ne p.2 k j _ (fun habs => hjk habs.symm), hegetD j]
      by_cases hjlt : j < k
      · rw [if_pos hjlt, List.getD_append B _ 0 j (by omega)]
      · rw [if_neg hjlt,
          List.getD_append_right B _ 0 j (by omega)]
        have hj' : j - B.length = (j - B.length - 1) + 1 := by omega
        rw [hj', List.getD_cons_succ, List.getD_eq_default _ _ (by simp)]

theorem filterMap_guard_eq_map (f : ℕ × ℕ → ℚ) :
    ∀ l : List (ℕ × ℕ), (∀ p ∈ l, p.1 ≤ p.2) →
      l.filterMap (fun p => if p.1 ≤ p.2 then some (f p) else none) = l.map f
  | [], _ => rfl
  | p :: rest, h => by
    rw [List.filterMap_cons, List.map_cons]
    rw [if_pos (h p (List.mem_cons_self p rest))]
    exact congrArg (List.cons (f p))
      (filterMap_guard_eq_map f rest (fun q hq => h q (List.mem_cons_of_mem p hq)))

theorem dbSessionLengths_eq (ts : List ℚ) :
    dbSessionLengths ts = sessionLengths ts 15 := by
  unfold dbSessionLengths
  rw [dbStartsEnds_eq]
  unfold sessionLengths sessionsOf
  rw [List.map_map]
  rw [show (sessionStarts ts 15).zip (sessionEnds ts 15) =
    idxPairs 0 (sessionBreaks ts 15) (ts.length - 1) from zip_eq_idxPairs _ 0 _]
  have wf := idxPairs_wf (sessionBreaks ts 15) 0 (ts.length - 1)
    (sessionBreaks_pairwise ts 15)
    (fun b hb => by have := sessionBreaks_bound ts 15 b hb; omega)
    (fun b _ => Nat.zero_le b) (Nat.zero_le _)
  exact filterMap_guard_eq_map _ _ (fun q hq => (wf.1 q hq).2.1)

theorem dashSummary_eq_db (u : String) (ts : List ℚ) :
    dashSummary u ts 15 = dbSummary u ts := by
  simp only [dashSummary, dbSummary, dbSessionLengths_eq, metricsBreaks_eq]

theorem userRows_mem_names (df : List Row) (u : String)
    (hne : userRows df u ≠ []) : u ∈ df.map (fun r => r.name) := by
  obtain ⟨r, hr⟩ := List.exists_mem_of_ne_nil _ hne
  have hr' := List.mem_filter.mp hr
  exact List.mem_map.mpr ⟨r, hr'.1, by simpa using hr'.2⟩

theorem mem_metrics_filter (df : List Row) (u : String)
    (h2 : 2 ≤ (userRows df u).length) (hu : u ∈ df.map (fun r => r.name)) :
    u ∈ ((df.map (fun r => r.name)).dedup).filter
      (fun v => ¬ (userRows df v).length < 2) := by
  refine List.mem_filter.mpr ⟨List.mem_dedup.mpr hu, ?_⟩
  show decide (¬ (userRows df u).length < 2) = true
  simp only [decide_eq_true_eq]
  omega

theorem metrics_some (df : List Row) (u : String)
    (h2 : 2 ≤ (userRows df u).length) (hu : u ∈ df.map (fun r => r.name)) :
    calculate_session_metrics df =
      some ((((df.map (fun r => r.name)).dedup).filter
          (fun v => ¬ (userRows df v).length < 2)).map
        (fun v => dbSummary v (userTs df v))) := by
  have hdf2 : 2 ≤ df.length :=
    le_trans h2 (List.length_filter_le _ df)
  unfold calculate_session_metrics
  rw [if_neg (by omega)]
  have hmem : dbSummary u (userTs df u) ∈
      ((((df.map (fun r => r.name)).dedup).filter
          (fun v => ¬ (userRows df v).length < 2)).map
        (fun v => dbSummary v (userTs df v))) :=
    List.mem_map.mpr ⟨u, mem_metrics_filter df u h2 hu, rfl⟩
  rw [if_neg (fun habs => (List.ne_nil_of_mem hmem) (List.isEmpty_iff.mp habs))]

/-- C10: on every user with at least two observations, the dashboard's
`calculate_sessions` with gap threshold 15 and
`DatabaseManager._calculate_session_metrics` (fixed 15-minute
threshold) are equivalent: the index-array construction of the latter
produces exactly the dashboard's `session_starts` / `session_ends`
lists (same session boundaries), and both produce the same summary row
for the user — same total sessions, average, maximum, total online
minutes, first seen, last seen and days active. -/
theorem batch_sessionizers_equivalent (df : List Row) (u : String)
    (h2 : 2 ≤ (userRows df u).length) :
    dbStartsEnds (userTs df u) =
      (sessionStarts (userTs df u) 15, sessionEnds (userTs df u) 15) ∧
    dashSummary u (userTs df u) 15 = dbSummary u (userTs df u) ∧
    rowFor df 15 u = some (dashSummary u (userTs df u) 15) ∧
    ∃ rows, calculate_session_metrics df = some rows ∧
      rows.find? (fun r => r.name = u) = some (dbSummary u (userTs df u)) := by
  have hne : userRows df u ≠ [] := by
    intro habs
    rw [habs] at h2
    simp at h2
  have hu := userRows_mem_names df u hne
  have hdf2 : 2 ≤ df.length := le_trans h2 (List.length_filter_le _ df)
  refine ⟨dbStartsEnds_eq _, dashSummary_eq_db u _, rowFor_eq df 15 u hdf2 hu, ?_⟩
  refine ⟨_, metrics_some df u h2 hu, ?_⟩
  rw [List.find?_map]
  have hdecomp : ((fun r : SummaryRow => decide (r.name = u)) ∘
      (fun v => dbSummary v (userTs df v))) = fun v => decide (v = u) := by
    funext v
    rfl
  rw [hdecomp, find?_eq_self u _ (mem_metrics_filter df u h2 hu)]
  rfl

/-- C10 witness: the equivalence applied to a user with two
observations 100 minutes apart. -/
theorem batch_sessionizers_equivalent_witness :
    2 ≤ (userRows [⟨"u", 0⟩, ⟨"u", 100⟩] "u").length ∧
      dashSummary "u" (userTs [⟨"u", 0⟩, ⟨"u", 100⟩] "u") 15 =
        dbSummary "u" (userTs [⟨"u", 0⟩, ⟨"u", 100⟩] "u") :=
  ⟨by decide, (batch_sessionizers_equivalent [⟨"u", 0⟩, ⟨"u", 100⟩] "u" (by decide)).2.1⟩

/-! ## Live tracker state machine -/

theorem lookupE_eq_none_iff (es : Entries) (u : String) :
    lookupE es u = none ↔ u ∉ es.map (fun p => p.1) := by
  unfold lookupE
  rw [Option.map_eq_none', List.find?_eq_none]
  constructor
  · intro h hmem
    obtain ⟨p, hp, hpu⟩ := List.mem_map.mp hmem
    exact (h p hp) (decide_eq_true hpu)
  · intro h p hp hdec
    exact h (List.mem_map.mpr ⟨p, hp, of_decide_eq_true hdec⟩)

theorem lookupE_update_self (es : Entries) (u : String) (v : Option ℚ) :
    lookupE (es.map (fun p => if p.1 = u then (u, v) else p)) u =
      (lookupE es u).map (fun _ => v) := by
  induction es with
  | nil => rfl
  | cons p rest ih =>
    by_cases hp : p.1 = u
    · simp only [List.map_cons, if_pos hp]
      unfold lookupE
      rw [List.find?_cons, List.find?_cons]
      simp [hp]
    · simp only [List.map_cons, if_neg hp]
      unfold lookupE
      rw [List.find?_cons, List.find?_cons, decide_eq_false hp]
      exact ih

theorem lookupE_update_ne (es : Entries) (i u : String) (v : Option ℚ)
    (hne : i ≠ u) :
    lookupE (es.map (fun p => if p.1 = i then (i, v) else p)) u = lookupE es u := by
  induction es with
  | nil => rfl
  | cons p rest ih =>
    by_cases hp : p.1 = i
    · simp only [List.map_cons, if_pos hp]
      unfold lookupE
      rw [List.find?_cons, List.find?_cons, decide_eq_false hne,
        decide_eq_false (hp ▸ hne : ¬ p.1 = u)]
      exact ih
    · simp only [List.map_cons, if_neg hp]
      unfold lookupE
      rw [List.find?_cons, List.find?_cons]
      by_cases hpu : p.1 = u
      · simp [hpu]
      · rw [decide_eq_false hpu]
        exact ih

theorem lookupE_append_ne (es : Entries) (kv : String × Option ℚ) (u : String)
    (hne : kv.1 ≠ u) :
    lookupE (es ++ [kv]) u = lookupE es u := by
  unfold lookupE
  rw [List.find?_append]
  have h2 : [kv].find? (fun p => p.1 = u) = none := by
    rw [List.find?_cons, decide_eq_false hne]
    rfl
  rw [h2, Option.or_none]

theorem lookupE_append_self (es : Entries) (u : String) (v : Option ℚ)
    (h : lookupE es u = none) :
    lookupE (es ++ [(u, v)]) u = some v := by
  unfold lookupE
  rw [List.find?_append]
  have h1 : es.find? (fun p => p.1 = u) = none := by
    unfold lookupE at h
    exact Option.map_eq_none'.mp h
  rw [h1, Option.none_or, List.find?_cons]
  simp

theorem phase1Step_lookup (t : ℚ) (es : Entries) (name : String) (u : String) :
    lookupE (phase1Step t es name) u =
      if normalizeId name = u then
        match lookupE es u with
        | some (some s) => some (some s)
        | _ => some (some t)
      else lookupE es u := by
  simp only [phase1Step]
  by_cases hid : normalizeId name = u
  · rw [hid, if_pos rfl]
    cases hl : lookupE es u with
    | none =>
      exact lookupE_append_self es u (some t) hl
    | some x =>
      cases x with
      | none =>
        show lookupE (es.map (fun p => if p.1 = u then (u, some t) else p)) u =
          some (some t)
        rw [lookupE_update_self es u (some t), hl]
        rfl
      | some s =>
        exact hl
  · rw [if_neg hid]
    cases hl : lookupE es (normalizeId name) with
    | none =>
      exact lookupE_append_ne es (normalizeId name, some t) u hid
    | some x =>
      cases x with
      | none =>
        exact lookupE_update_ne es (normalizeId name) u (some t) hid
      | some s =>
        rfl

theorem stillOnline_cons (n : String) (rest : List String) (u : String) :
    stillOnline (n :: rest) u =
      (decide (normalizeId n = u) || stillOnline rest u) := by
  unfold stillOnline
  rw [List.any_cons]

theorem phase1_lookup (t : ℚ) : ∀ (names : List String) (es : Entries) (u : String),
    lookupE (phase1 es names t) u =
      if stillOnline names u = true then
        match lookupE es u with
        | some (some s) => some (some s)
        | _ => some (some t)
      else lookupE es u
  | [], es, u => by
    rw [if_neg (by simp [stillOnline])]
    rfl
  | name :: rest, es, u => by
    have hstep : phase1 es (name :: rest) t = phase1 (phase1Step t es name) rest t := rfl
    rw [hstep, phase1_lookup t rest (phase1Step t es name) u, phase1Step_lookup]
    by_cases hid : normalizeId name = u
    · have hso : stillOnline (name :: rest) u = true := by
        rw [stillOnline_cons, decide_eq_true hid, Bool.true_or]
      rw [hso, if_pos rfl, if_pos hid]
      by_cases hrest : stillOnline rest u = true
      · rw [if_pos hrest]
        cases hl : lookupE es u with
        | none => rfl
        | some x => cases x <;> rfl
      · rw [if_neg hrest]
    · have hso : stillOnline (name :: rest) u = stillOnline rest u := by
        rw [stillOnline_cons, decide_eq_false hid, Bool.false_or]
      rw [if_neg hid, hso]

theorem keys_update (es : Entries) (i : String) (v : Option ℚ) :
    (es.map (fun p => if p.1 = i then (i, v) else p)).map (fun p => p.1) =
      es.map (fun p => p.1) := by
  rw [List.map_map]
  apply List.map_congr_left
  intro p _
  show (if p.1 = i then (i, v) else p).1 = p.1
  by_cases hp : p.1 = i
  · rw [if_pos hp, hp]
  · rw [if_neg hp]

theorem phase1Step_nodup (t : ℚ) (es : Entries) (name : String)
    (h : (es.map (fun p => p.1)).Nodup) :
    ((phase1Step t es name).map (fun p => p.1)).Nodup := by
  simp only [phase1Step]
  cases hl : lookupE es (normalizeId name) with
  | none =>
    show ((es ++ [(normalizeId name, some t)]).map (fun p => p.1)).Nodup
    rw [List.map_append]
    have hfresh : normalizeId name ∉ es.map (fun p => p.1) :=
      (lookupE_eq_none_iff es _).mp hl
    have hcc := List.Nodup.concat hfresh h
    rwa [List.concat_eq_append] at hcc
  | some x =>
    cases x with
    | none =>
      show ((es.map (fun p => if p.1 = normalizeId name
        then (normalizeId name, some t) else p)).map (fun p => p.1)).Nodup
      rw [keys_update]
      exact h
    | some s =>
      exact h

theorem phase1_nodup (t : ℚ) : ∀ (names : List String) (es : Entries),
    (es.map (fun p => p.1)).Nodup →
    ((phase1 es names t).map (fun p => p.1)).Nodup
  | [], _, h => h
  | name :: rest, es, h =>
    phase1_nodup t rest (phase1Step t es name) (phase1Step_nodup t es name h)

theorem phase2Entries_keys (es : Entries) (names : List String) :
    (phase2Entries es names).map (fun p => p.1) = es.map (fun p => p.1) := by
  unfold phase2Entries
  rw [List.map_map]
  apply List.map_congr_left
  intro p _
  show (match p.2 with
    | some _ => if stillOnline names p.1 = true then p else (p.1, none)
    | none => p).1 = p.1
  cases hp : p.2 with
  | none => rfl
  | some s =>
    by_cases hs : stillOnline names p.1 = true
    · rw [if_pos hs]
    · rw [if_neg hs]

theorem lookupE_map_keyfix (f : String × Option ℚ → String × Option ℚ)
    (hf : ∀ p, (f p).1 = p.1) :
    ∀ (es : Entries) (u : String),
    lookupE (es.map f) u = ((es.find? (fun p => p.1 = u)).map f).map (fun p => p.2)
  | [], _ => rfl
  | p :: rest, u => by
    unfold lookupE
    rw [List.map_cons]
    simp only [List.find?_cons]
    by_cases hpu : p.1 = u
    · rw [decide_eq_true (Eq.trans (hf p) hpu), decide_eq_true hpu]
      rfl
    · rw [decide_eq_false (fun habs => hpu (Eq.trans (hf p).symm habs)),
        decide_eq_false hpu]
      have ih := lookupE_map_keyfix f hf rest u
      unfold lookupE at ih
      exact ih

theorem phase2Entries_lookup (names : List String) (es : Entries) (u : String) :
    lookupE (phase2Entries es names) u =
      match lookupE es u with
      | some (some s) =>
          if stillOnline names u = true then some (some s) else some none
      | x => x := by
  unfold phase2Entries
  rw [lookupE_map_keyfix _ (fun p => by
    show (match p.2 with
      | some _ => if stillOnline names p.1 = true then p else (p.1, none)
      | none => p).1 = p.1
    cases hp : p.2 with
    | none => rfl
    | some s =>
      by_cases hs : stillOnline names p.1 = true
      · rw [if_pos hs]
      · rw [if_neg hs])]
  cases hfind : es.find? (fun p => p.1 = u) with
  | none =>
    have hlk : lookupE es u = none := by
      unfold lookupE
      rw [hfind]
      rfl
    rw [hlk]
    rfl
  | some q =>
    have hqu : q.1 = u := by
      have := List.find?_some hfind
      simpa using this
    have hlk : lookupE es u = some q.2 := by
      unfold lookupE
      rw [hfind]
      rfl
    rw [hlk]
    cases hq2 : q.2 with
    | none => simp [hq2]
    | some s =>
      by_cases hs : stillOnline names u = true
      · simp [hq2, hqu, hs]
      · simp [hq2, hqu, hs]

theorem phase2Sessions_user_mem (es : Entries) (names : List String) (t : ℚ) :
    ∀ s ∈ phase2Sessions es names t, s.user ∈ es.map (fun p => p.1) := by
  intro s hs
  unfold phase2Sessions at hs
  obtain ⟨p, hp, hps⟩ := List.mem_filterMap.mp hs
  refine List.mem_map.mpr ⟨p, hp, ?_⟩
  cases hp2 : p.2 with
  | none =>
    rw [hp2] at hps
    exact absurd hps (by simp)
  | some s0 =>
    rw [hp2] at hps
    by_cases hso : stillOnline names p.1 = true
    · simp [hso] at hps
    · simp [hso] at hps
      rw [← hps]

theorem phase2Sessions_filter (names : List String) (t : ℚ) (u : String) :
    ∀ es : Entries, (es.map (fun p => p.1)).Nodup →
    (phase2Sessions es names t).filter (fun s => s.user = u) =
      match lookupE es u with
      | some (some s) =>
          if stillOnline names u = true then [] else [⟨u, s, t, t - s⟩]
      | _ => []
  | [], _ => rfl
  | p :: rest, hnd => by
    have hnd' := List.nodup_cons.mp (by rw [List.map_cons] at hnd; exact hnd)
    have hnotin : p.1 ∉ rest.map (fun q => q.1) := hnd'.1
    have ih := phase2Sessions_filter names t u rest hnd'.2
    unfold phase2Sessions
    rw [List.filterMap_cons]
    cases hp2 : p.2 with
    | none =>
      by_cases hpu : p.1 = u
      · have hlkrest : lookupE rest u = none :=
          (lookupE_eq_none_iff rest u).mpr (by rw [← hpu]; exact hnotin)
        have hlk : lookupE (p :: rest) u = some none := by
          unfold lookupE
          simp only [List.find?_cons]
          rw [decide_eq_true hpu]
          simp [hp2]
        rw [hlk]
        show (phase2Sessions rest names t).filter (fun s => s.user = u) = ([] : List LiveSession)
        rw [ih, hlkrest]
      · have hlk : lookupE (p :: rest) u = lookupE rest u := by
          unfold lookupE
          simp only [List.find?_cons]
          rw [decide_eq_false hpu]
        rw [hlk]
        show (phase2Sessions rest names t).filter (fun s => s.user = u) = _
        exact ih
    | some s0 =>
      cases hso : stillOnline names p.1 with
      | true =>
        by_cases hpu : p.1 = u
        · have hlkrest : lookupE rest u = none :=
            (lookupE_eq_none_iff rest u).mpr (by rw [← hpu]; exact hnotin)
          have hlk : lookupE (p :: rest) u = some (some s0) := by
            unfold lookupE
            simp only [List.find?_cons]
            rw [decide_eq_true hpu]
            simp [hp2]
          rw [hlk]
          have hsou : stillOnline names u = true := by
            rw [← hpu]
            exact hso
          rw [hsou]
          show (phase2Sessions rest names t).filter (fun s => s.user = u) =
            ([] : List LiveSession)
          rw [ih, hlkrest]
        · have hlk : lookupE (p :: rest) u = lookupE rest u := by
            unfold lookupE
            simp only [List.find?_cons]
            rw [decide_eq_false hpu]
          rw [hlk]
          show (phase2Sessions rest names t).filter (fun s => s.user = u) = _
          exact ih
      | false =>
        by_cases hpu : p.1 = u
        · have hlkrest : lookupE rest u = none :=
            (lookupE_eq_none_iff rest u).mpr (by rw [← hpu]; exact hnotin)
          have hlk : lookupE (p :: rest) u = some (some s0) := by
            unfold lookupE
            simp only [List.find?_cons]
            rw [decide_eq_true hpu]
            simp [hp2]
          rw [hlk]
          have hsou : stillOnline names u = false := by
            rw [← hpu]
            exact hso
          rw [hsou]
          show (⟨p.1, s0, t, t - s0⟩ :: phase2Sessions rest names t).filter
            (fun s => s.user = u) = [⟨u, s0, t, t - s0⟩]
          have hrest0 : (phase2Sessions rest names t).filter (fun s => s.user = u) = [] := by
            rw [ih, hlkrest]
          simp only [List.filter_cons, decide_eq_true hpu]
          rw [hrest0, hpu]
          simp
        · have hlk : lookupE (p :: rest) u = lookupE rest u := by
            unfold lookupE
            simp only [List.find?_cons]
            rw [decide_eq_false hpu]
          rw [hlk]
          show (⟨p.1, s0, t, t - s0⟩ :: phase2Sessions rest names t).filter
            (fun s => s.user = u) = _
          simp only [List.filter_cons, decide_eq_false hpu]
          exact ih

theorem update_present (st : TrackerState) (names : List String) (t : ℚ) (u : String)
    (hnd : (st.entries.map (fun p => p.1)).Nodup)
    (hstill : stillOnline names u = true) :
    ((update_activity_data st names t).entries.map (fun p => p.1)).Nodup ∧
    lookupE (update_activity_data st names t).entries u =
      some (match lookupE st.entries u with
        | some (some s) => some s
        | _ => some t) ∧
    (update_activity_data st names t).sessions.filter (fun s => s.user = u) =
      st.sessions.filter (fun s => s.user = u) := by
  unfold update_activity_data
  refine ⟨?_, ?_, ?_⟩
  · show ((phase2Entries (phase1 st.entries names t) names).map (fun p => p.1)).Nodup
    rw [phase2Entries_keys]
    exact phase1_nodup t names st.entries hnd
  · show lookupE (phase2Entries (phase1 st.entries names t) names) u = _
    rw [phase2Entries_lookup, phase1_lookup, if_pos hstill]
    cases hl : lookupE st.entries u with
    | none => simp [hstill]
    | some x => cases x <;> simp [hstill]
  · show (st.sessions ++ phase2Sessions (phase1 st.entries names t) names t).filter
      (fun s => s.user = u) = _
    rw [List.filter_append,
      phase2Sessions_filter names t u _ (phase1_nodup t names st.entries hnd),
      phase1_lookup, if_pos hstill]
    cases hl : lookupE st.entries u with
    | none => simp [hstill]
    | some x => cases x <;> simp [hstill]

theorem update_absent (st : TrackerState) (names : List String) (t : ℚ)
    (u : String) (s : ℚ)
    (hnd : (st.entries.map (fun p => p.1)).Nodup)
    (habs : stillOnline names u = false)
    (hON : lookupE st.entries u = some (some s)) :
    ((update_activity_data st names t).entries.map (fun p => p.1)).Nodup ∧
    lookupE (update_activity_data st names t).entries u = some none ∧
    (update_activity_data st names t).sessions.filter (fun x => x.user = u) =
      st.sessions.filter (fun x => x.user = u) ++ [⟨u, s, t, t - s⟩] := by
  unfold update_activity_data
  have habs' : ¬ stillOnline names u = true := by
    rw [habs]
    exact Bool.false_ne_true
  refine ⟨?_, ?_, ?_⟩
  · show ((phase2Entries (phase1 st.entries names t) names).map (fun p => p.1)).Nodup
    rw [phase2Entries_keys]
    exact phase1_nodup t names st.entries hnd
  · show lookupE (phase2Entries (phase1 st.entries names t) names) u = _
    rw [phase2Entries_lookup, phase1_lookup, if_neg habs', hON]
    simp [habs']
  · show (st.sessions ++ phase2Sessions (phase1 st.entries names t) names t).filter
      (fun x => x.user = u) = _
    rw [List.filter_append,
      phase2Sessions_filter names t u _ (phase1_nodup t names st.entries hnd),
      phase1_lookup, if_neg habs', hON]
    simp [habs']

theorem run_present_scans (uid : String) (t1 : ℚ) :
    ∀ (ms : List (List String × ℚ)) (s : TrackerState),
      (∀ p ∈ ms, stillOnline p.1 uid = true) →
      (s.entries.map (fun p => p.1)).Nodup →
      lookupE s.entries uid = some (some t1) →
      ((runScans s ms).entries.map (fun p => p.1)).Nodup ∧
      lookupE (runScans s ms).entries uid = some (some t1) ∧
      (runScans s ms).sessions.filter (fun x => x.user = uid) =
        s.sessions.filter (fun x => x.user = uid)
  | [], s, _, hnd, hlk => ⟨hnd, hlk, rfl⟩
  | m :: ms, s, hall, hnd, hlk => by
    have hstep := update_present s m.1 m.2 uid hnd (hall m (List.mem_cons_self m ms))
    have hlk' : lookupE (update_activity_data s m.1 m.2).entries uid = some (some t1) := by
      rw [hstep.2.1, hlk]
    have ih := run_present_scans uid t1 ms (update_activity_data s m.1 m.2)
      (fun p hp => hall p (List.mem_cons_of_mem m hp)) hstep.1 hlk'
    have hfold : runScans s (m :: ms) = runScans (update_activity_data s m.1 m.2) ms := rfl
    rw [hfold]
    exact ⟨ih.1, ih.2.1, by rw [ih.2.2, hstep.2.2]⟩

/-- C7 (amended): a user who is not currently tracked online, then
present in consecutive scans at times t1..tk (k ≥ 1) and absent at the
next scan at time t', produces exactly one closed session for that
user, with start = t1 and end = t' — the time of the scan at which the
absence is detected, not the time tk of the last scan at which the
user was present. -/
theorem live_tracker_one_session (st : TrackerState) (u : String)
    (S1 : List String) (t1 : ℚ) (mid : List (List String × ℚ))
    (Sl : List String) (tl : ℚ)
    (hnd : (st.entries.map (fun p => p.1)).Nodup)
    (h0 : lookupE st.entries (normalizeId u) = none ∨
      lookupE st.entries (normalizeId u) = some none)
    (h1 : stillOnline S1 (normalizeId u) = true)
    (hmid : ∀ p ∈ mid, stillOnline p.1 (normalizeId u) = true)
    (hl : stillOnline Sl (normalizeId u) = false) :
    (runScans st ((S1, t1) :: mid ++ [(Sl, tl)])).sessions.filter
        (fun s => s.user = normalizeId u) =
      st.sessions.filter (fun s => s.user = normalizeId u) ++
        [⟨normalizeId u, t1, tl, tl - t1⟩] := by
  have hstep := update_present st S1 t1 (normalizeId u) hnd h1
  have hlk1 : lookupE (update_activity_data st S1 t1).entries (normalizeId u) =
      some (some t1) := by
    rcases h0 with h | h <;> rw [hstep.2.1, h]
  have hfold : runScans st ((S1, t1) :: mid ++ [(Sl, tl)]) =
      runScans (runScans (update_activity_data st S1 t1) mid) [(Sl, tl)] := by
    show runScans st (((S1, t1) :: mid) ++ [(Sl, tl)]) = _
    unfold runScans
    rw [List.foldl_append]
    rfl
  rw [hfold]
  have hrun := run_present_scans (normalizeId u) t1 mid (update_activity_data st S1 t1)
    hmid hstep.1 hlk1
  have hlast := update_absent (runScans (update_activity_data st S1 t1) mid)
    Sl tl (normalizeId u) t1 hrun.1 hl hrun.2.1
  have hfin : runScans (runScans (update_activity_data st S1 t1) mid) [(Sl, tl)] =
      update_activity_data (runScans (update_activity_data st S1 t1) mid) Sl tl := rfl
  rw [hfin, hlast.2.2, hrun.2.2, hstep.2.2]

/-- C7 counterexample: "Bob" present at scans 0 and 5 and absent at
scan 10 yields the single session (start 0, end 10): the session ends
at the scan where the absence is detected (10), not at the last scan
where the user was present (5), contradicting the claimed `end = t_k`. -/
theorem live_tracker_end_not_last_present :
    ((runScans ⟨[], []⟩ [(["Bob"], 0), (["Bob"], 5), ([], 10)]).sessions.map
      (fun s => (s.user, s.start, s.stop))) = [("bob", 0, 10)] ∧
    ((10 : ℚ), (10 : ℚ)) ≠ ((10 : ℚ), (5 : ℚ)) := by
  constructor
  · decide
  · decide

/-- C7 witness: the amended theorem applied to the concrete run
("Bob" present at 0 and 5, absent at 10) starting from the empty
tracker state. -/
theorem live_tracker_one_session_witness :
    (runScans ⟨[], []⟩ [(["Bob"], 0), (["Bob"], 5), ([], 10)]).sessions.filter
        (fun s => s.user = normalizeId "Bob") =
      ([] : List LiveSession).filter (fun s => s.user = normalizeId "Bob") ++
        [⟨normalizeId "Bob", 0, 10, 10 - 0⟩] :=
  live_tracker_one_session ⟨[], []⟩ "Bob" ["Bob"] 0 [(["Bob"], 5)] [] 10
    (by decide) (Or.inl rfl) (by decide) (by decide) (by decide)
